import Mathlib

/-!
Verification of the go-blockchain repository: a proof-of-work ledger with
MD5-based mining, chain linkage, coinbase transactions and signed transfers.

Modelling conventions:
* Go byte slices (and Go strings holding raw digest bytes, such as
  `Block.Hash` / `Block.PrevHash`) are `List Nat` with every entry below 256.
* The external library digest `crypto/md5.Sum` is a parameter
  `md5 : Bytes → Bytes`; the facts proved here use only its interface
  contract (a 16-byte output), captured by `ValidDigest`.
* The unbounded Go mining loop is modelled with explicit fuel returning
  `Option`; `none` means the loop was still running after `fuel` iterations.
* The wall-clock-seeded random starting nonce chosen by `CreateBlock`
  (`rand.Intn(10000)`) is an explicit `initialNonce` argument.
* Go `float64` transaction amounts (only the exact decimal literals 0, 5.0
  and 10.0 occur) are modelled as `Rat`.
-/

namespace GoBlockchain

/-- Byte sequences: Go `[]byte` values, each entry a byte below 256. -/
abbrev Bytes := List Nat

/-- UTF-8 bytes of a Go string, as used by `[]byte(s)` conversions. -/
def strBytes (s : String) : Bytes := s.toUTF8.toList.map (fun b => b.toNat)

/-- Transaction from blockchain.go: sender, receiver, amount, coinbase flag. -/
structure Transaction where
  Sender : String
  Receiver : String
  Amount : Rat
  Coinbase : Bool
deriving DecidableEq

/-- Block from block.go: hash, payload data, previous hash, nonce, transactions. -/
structure Block where
  Hash : Bytes
  Data : String
  PrevHash : Bytes
  Nonce : Nat
  Transactions : List Transaction
deriving DecidableEq

/-- Blockchain from block.go: the ordered sequence of blocks. -/
structure Blockchain where
  Blocks : List Block
deriving DecidableEq

/-- The process-wide difficulty constant from proof.go. -/
def Difficulty : Nat := 10

/-- ProofOfWork from proof.go: the block being mined and the numeric target. -/
structure ProofOfWork where
  Blk : Block
  Target : Nat
deriving DecidableEq

/-- Target as a function of the difficulty: `1 << (256 - difficulty)`,
the shift amount being the nonnegative value `256 - Difficulty` that
`NewProofOfWork` converts to `uint`. -/
def TargetOf (difficulty : Nat) : Nat := 1 <<< (256 - difficulty)

/-- NewProofOfWork from proof.go: `targetVal.Lsh(big.NewInt(1), 256-Difficulty)`. -/
def NewProofOfWork (block : Block) : ProofOfWork :=
  { Blk := block, Target := TargetOf Difficulty }

/-- Big-endian 8-byte encoding of the low 64 bits of `v`, as written by
`binary.BigEndian.PutUint64` for the Go value `uint64(v)`. -/
def beBytes8 (v : Nat) : Bytes :=
  (List.range 8).map (fun i => v % 2 ^ 64 / 256 ^ (7 - i) % 256)

/-- Overwrite of 8 bytes of `buf` at offset `off` with the big-endian
encoding of `v`: the effect of `binary.BigEndian.PutUint64(buf[off:], v)`. -/
def putUint64BE (buf : Bytes) (off : Nat) (v : Nat) : Bytes :=
  buf.take off ++ beBytes8 v ++ buf.drop (off + 8)

/-- ComputeData from proof.go: joins prevHash, data and two zeroed 8-byte
slots, then writes the nonce at `len-16` and the difficulty at `len-8`. -/
def ComputeData (pow : ProofOfWork) (nonce : Nat) : Bytes :=
  let data := pow.Blk.PrevHash ++ strBytes pow.Blk.Data ++
    List.replicate 8 0 ++ List.replicate 8 0
  let data1 := putUint64BE data (data.length - 16) nonce
  putUint64BE data1 (data1.length - 8) Difficulty

/-- Digest bytes read as an unsigned big-endian integer: `big.Int.SetBytes`. -/
def bytesToNat (bs : Bytes) : Nat := bs.foldl (fun acc b => acc * 256 + b) 0

/-- Mining loop body of MineBlock from proof.go, with explicit fuel: starting
from `nonce`, hash the transcript and stop at the first digest whose integer
value is under the target; `none` when fuel runs out first. -/
def mineAux (md5 : Bytes → Bytes) (pow : ProofOfWork) :
    Nat → Nat → Option (Nat × Bytes)
  | 0, _ => none
  | fuel + 1, nonce =>
    let computedHash := md5 (ComputeData pow nonce)
    if bytesToNat computedHash < pow.Target then some (nonce, computedHash)
    else mineAux md5 pow fuel (nonce + 1)

/-- MineBlock from proof.go: the search starts at nonce 0. -/
def MineBlock (md5 : Bytes → Bytes) (pow : ProofOfWork) (fuel : Nat) :
    Option (Nat × Bytes) :=
  mineAux md5 pow fuel 0

/-- Validate from proof.go: recompute the transcript at the block's stored
nonce and compare the digest-as-integer with the target. -/
def Validate (md5 : Bytes → Bytes) (pow : ProofOfWork) : Bool :=
  if bytesToNat (md5 (ComputeData pow pow.Blk.Nonce)) < pow.Target then true
  else false

/-- ComputeHash from block.go: digest of `data ∥ prevHash` stored in `Hash`.
(Defined by the source but bypassed by `CreateBlock`, which stores the
mining digest instead.) -/
def ComputeHash (md5 : Bytes → Bytes) (b : Block) : Block :=
  { b with Hash := md5 (strBytes b.Data ++ b.PrevHash) }

/-- CreateBlock from block.go: build the shell with a randomized starting
nonce (here the explicit `initialNonce`), mine it, and store the winning
nonce and digest. `none` when the mining loop exhausts its fuel. -/
def CreateBlock (md5 : Bytes → Bytes) (fuel : Nat) (data : String)
    (prevHash : Bytes) (transactions : List Transaction)
    (initialNonce : Nat) : Option Block :=
  let block : Block :=
    { Hash := [], Data := data, PrevHash := prevHash,
      Nonce := initialNonce, Transactions := transactions }
  let newPow := NewProofOfWork block
  match MineBlock md5 newPow fuel with
  | none => none
  | some (nonce, hash) => some { block with Hash := hash, Nonce := nonce }

/-- The synthetic coinbase transaction of the genesis block. -/
def GenesisCoinbaseTx : Transaction :=
  { Sender := "Coinbase", Receiver := "Genesis", Amount := 0, Coinbase := true }

/-- Genesis from block.go: the block with data `"Genesis"`, empty previous
hash and the single zero-amount coinbase transaction. -/
def Genesis (md5 : Bytes → Bytes) (fuel initialNonce : Nat) : Option Block :=
  CreateBlock md5 fuel "Genesis" [] [GenesisCoinbaseTx] initialNonce

/-- InitBlockChain from blockchain.go: a chain holding only the genesis block. -/
def InitBlockChain (md5 : Bytes → Bytes) (fuel initialNonce : Nat) :
    Option Blockchain :=
  (Genesis md5 fuel initialNonce).map (fun g => { Blocks := [g] })

/-- AddBlock from blockchain.go: read the tail block, synthesize the reward
coinbase transaction, prepend it to the caller's transactions, create the
new block linked to the tail's hash, and append it. -/
def AddBlock (md5 : Bytes → Bytes) (fuel : Nat) (chain : Blockchain)
    (data coinbaseRcpt : String) (transactions : List Transaction)
    (initialNonce : Nat) : Option Blockchain :=
  match chain.Blocks.getLast? with
  | none => none
  | some prevBlock =>
    let coinbaseTransaction : Transaction :=
      { Sender := "Coinbase", Receiver := coinbaseRcpt, Amount := 10,
        Coinbase := true }
    (CreateBlock md5 fuel data prevBlock.Hash
        (coinbaseTransaction :: transactions) initialNonce).map
      (fun newBlock => { Blocks := chain.Blocks ++ [newBlock] })

/-- Interface contract of `crypto/md5.Sum`: a 16-byte digest. -/
def ValidDigest (md5 : Bytes → Bytes) : Prop :=
  ∀ bs, (md5 bs).length = 16 ∧ ∀ b ∈ md5 bs, b < 256

/-- Degenerate digest satisfying the `crypto/md5.Sum` interface contract,
used to instantiate universally quantified statements at a concrete point. -/
def md5Const : Bytes → Bytes := fun _ => List.replicate 16 0

/-- Concrete genesis block produced by `InitBlockChain` under `md5Const`. -/
def gBlock : Block :=
  { Hash := List.replicate 16 0, Data := "Genesis", PrevHash := [],
    Nonce := 0, Transactions := [GenesisCoinbaseTx] }

/-- Concrete one-block chain produced by `InitBlockChain` under `md5Const`. -/
def gChain : Blockchain := { Blocks := [gBlock] }

/-- Concrete block appended by `AddBlock "B1" "Alice" []` under `md5Const`. -/
def b1Block : Block :=
  { Hash := List.replicate 16 0, Data := "B1",
    PrevHash := List.replicate 16 0, Nonce := 0,
    Transactions :=
      [{ Sender := "Coinbase", Receiver := "Alice", Amount := 10,
         Coinbase := true }] }

/-- Concrete two-block chain after one `AddBlock` under `md5Const`. -/
def chain2 : Blockchain := { Blocks := [gBlock, b1Block] }

/-- Content of the genesis block, as `Genesis` constructs it. -/
def IsGenesisBlock (b : Block) : Prop :=
  b.Data = "Genesis" ∧ b.PrevHash = [] ∧ b.Transactions = [GenesisCoinbaseTx]

/-- Chains producible by `InitBlockChain` followed by any sequence of
successful `AddBlock` calls, with arbitrary fuel and starting nonce each time. -/
inductive Reaches (md5 : Bytes → Bytes) : Blockchain → Prop where
  | init (fuel initialNonce : Nat) (c : Blockchain) :
      InitBlockChain md5 fuel initialNonce = some c → Reaches md5 c
  | add (c : Blockchain) (data coinbaseRcpt : String)
      (transactions : List Transaction) (fuel initialNonce : Nat)
      (c2 : Blockchain) : Reaches md5 c →
      AddBlock md5 fuel c data coinbaseRcpt transactions initialNonce = some c2 →
      Reaches md5 c2

/-- Modelled from the spec: the repository's wallet file (RSA key pairs,
`SignTransaction`, `VerifiyTransaction`) is not present among the sources;
only its callers in main.go are. A wallet is an asymmetric key pair; the
public key is the signing key's public counterpart. -/
structure Wallet where
  PublicKey : Nat
  PrivateKey : Nat
deriving DecidableEq

/-- Modelled from the spec: `generateKeyPair` produces a matching key pair
(`NewWallet` in the missing wallet file); the seed stands for the entropy
drawn from the random source. -/
def NewWallet (seed : Nat) : Wallet :=
  { PublicKey := seed, PrivateKey := seed }

/-- Modelled from the spec: the canonical transcript over the transaction's
signed fields (sender, receiver, amount), identical on the sign and verify
paths. -/
def txTranscript (tx : Transaction) : String × String × Rat :=
  (tx.Sender, tx.Receiver, tx.Amount)

/-- Modelled from the spec: a signature binds the digest of the transcript
to the signing key. -/
structure Signature where
  SignedDigest : String × String × Rat
  SignerKey : Nat
deriving DecidableEq

/-- Modelled from the spec: `SignTransaction` hashes the canonical
transcript and signs the digest with the wallet's private key. -/
def SignTransaction (w : Wallet) (tx : Transaction) : Signature :=
  { SignedDigest := txTranscript tx, SignerKey := w.PrivateKey }

/-- Modelled from the spec: `VerifiyTransaction` recomputes the transcript
digest and checks the signature against the public key, failing
deterministically with `InvalidSignatureError` on any mismatch. -/
def VerifiyTransaction (tx : Transaction) (publicKey : Nat)
    (sig : Signature) : Except String Unit :=
  if sig.SignerKey = publicKey ∧ sig.SignedDigest = txTranscript tx then
    Except.ok ()
  else Except.error "InvalidSignatureError"

/-- Length of the 8-byte big-endian encoding. -/
lemma beBytes8_length (v : Nat) : (beBytes8 v).length = 8 := by
  simp [beBytes8]

/-- Writing 8 bytes at the boundary between the two halves of a buffer. -/
lemma putUint64BE_append (L R : Bytes) (v : Nat) :
    putUint64BE (L ++ R) L.length v = L ++ beBytes8 v ++ R.drop 8 := by
  unfold putUint64BE
  rw [List.take_left, List.drop_append]

/-- The two `PutUint64` writes of `ComputeData` land exactly on the two
zeroed 8-byte slots. -/
lemma put_put_layout (L : Bytes) (v w : Nat) :
    putUint64BE
      (putUint64BE (L ++ List.replicate 8 0 ++ List.replicate 8 0)
        ((L ++ List.replicate 8 0 ++ List.replicate 8 0).length - 16) v)
      ((putUint64BE (L ++ List.replicate 8 0 ++ List.replicate 8 0)
        ((L ++ List.replicate 8 0 ++ List.replicate 8 0).length - 16) v).length - 8)
      w
      = L ++ beBytes8 v ++ beBytes8 w := by
  have h1 : (L ++ List.replicate 8 0 ++ List.replicate 8 0).length - 16 = L.length := by
    simp [List.length_append]
  rw [h1, List.append_assoc, putUint64BE_append,
    List.drop_left' (List.length_replicate 8 0)]
  have h2 : (L ++ beBytes8 v ++ List.replicate 8 0).length - 8
      = (L ++ beBytes8 v).length := by
    simp [List.length_append, beBytes8_length]
  rw [h2, putUint64BE_append]
  simp [List.drop_replicate]

/-- An accumulator-generalized bound for the digest-to-integer fold. -/
lemma foldl_byte_lt (bs : Bytes) : ∀ acc : Nat, (∀ b ∈ bs, b < 256) →
    bs.foldl (fun acc b => acc * 256 + b) acc < (acc + 1) * 256 ^ bs.length := by
  induction bs with
  | nil => intro acc _; simp
  | cons b bs ih =>
    intro acc h
    simp only [List.foldl_cons, List.length_cons]
    have hb : b < 256 := h b (List.mem_cons_self b bs)
    have hrec := ih (acc * 256 + b) (fun x hx => h x (List.mem_cons_of_mem _ hx))
    calc bs.foldl (fun acc b => acc * 256 + b) (acc * 256 + b)
        < (acc * 256 + b + 1) * 256 ^ bs.length := hrec
      _ ≤ ((acc + 1) * 256) * 256 ^ bs.length :=
          Nat.mul_le_mul_right _ (by omega)
      _ = (acc + 1) * 256 ^ (bs.length + 1) := by ring

/-- A digest of `n` bytes reads as an integer below `256 ^ n`. -/
lemma bytesToNat_lt (bs : Bytes) (h : ∀ b ∈ bs, b < 256) :
    bytesToNat bs < 256 ^ bs.length := by
  have := foldl_byte_lt bs 0 h
  simpa [bytesToNat] using this

/-- The target at the repository's difficulty constant is `2 ^ 246`. -/
lemma targetOf_difficulty : TargetOf Difficulty = 2 ^ 246 := by
  norm_num [TargetOf, Difficulty, Nat.shiftLeft_eq]

/-- Any 16-byte digest reads as an integer strictly below the target. -/
lemma validDigest_lt_target (md5 : Bytes → Bytes) (h : ValidDigest md5)
    (bs : Bytes) : bytesToNat (md5 bs) < TargetOf Difficulty := by
  have h1 := (h bs).1
  have h2 := (h bs).2
  have hlt : bytesToNat (md5 bs) < 256 ^ 16 := by
    have := bytesToNat_lt (md5 bs) h2
    rwa [h1] at this
  have h128 : (256 : Nat) ^ 16 = 2 ^ 128 := by norm_num
  rw [targetOf_difficulty]
  calc bytesToNat (md5 bs) < 2 ^ 128 := by rw [← h128]; exact hlt
    _ < 2 ^ 246 := Nat.pow_lt_pow_right (by norm_num) (by norm_num)

/-- The degenerate digest satisfies the interface contract. -/
lemma md5Const_valid : ValidDigest md5Const := by
  intro bs
  constructor
  · simp [md5Const]
  · intro b hb
    simp only [md5Const, List.mem_replicate] at hb
    omega

/-- What a successful run of the mining loop guarantees: the returned nonce
is at least the starting one, the returned digest is the hash of the
transcript at that nonce and beats the target, and no nonce from the start
up to the returned one beats the target. -/
lemma mineAux_spec (md5 : Bytes → Bytes) (pow : ProofOfWork) :
    ∀ (fuel start n : Nat) (h : Bytes),
      mineAux md5 pow fuel start = some (n, h) →
      start ≤ n ∧ h = md5 (ComputeData pow n) ∧ bytesToNat h < pow.Target ∧
        ∀ m, start ≤ m → m < n →
          ¬ bytesToNat (md5 (ComputeData pow m)) < pow.Target := by
  intro fuel
  induction fuel with
  | zero => intro start n h hm; simp [mineAux] at hm
  | succ fuel ih =>
    intro start n h hm
    by_cases hc : bytesToNat (md5 (ComputeData pow start)) < pow.Target
    · have : some (start, md5 (ComputeData pow start)) = some (n, h) := by
        simpa [mineAux, hc] using hm
      obtain ⟨rfl, rfl⟩ : start = n ∧ md5 (ComputeData pow start) = h := by
        simpa using this
      exact ⟨le_rfl, rfl, hc, fun m h1 h2 => absurd h1 (by omega)⟩
    · have hm2 : mineAux md5 pow fuel (start + 1) = some (n, h) := by
        simpa [mineAux, hc] using hm
      obtain ⟨hle, hh, ht, hmin⟩ := ih (start + 1) n h hm2
      refine ⟨by omega, hh, ht, fun m h1 h2 => ?_⟩
      rcases Nat.eq_or_lt_of_le h1 with rfl | hlt
      · exact hc
      · exact hmin m (by omega) h2

/-- The mining loop succeeds on its first iteration whenever the starting
nonce already beats the target. -/
lemma mineAux_first_hit (md5 : Bytes → Bytes) (pow : ProofOfWork)
    (fuel start : Nat)
    (hc : bytesToNat (md5 (ComputeData pow start)) < pow.Target) :
    mineAux md5 pow (fuel + 1) start
      = some (start, md5 (ComputeData pow start)) := by
  simp [mineAux, hc]

/-- The mining loop only looks at the transcript function and the target. -/
lemma mineAux_congr (md5 : Bytes → Bytes) (pow1 pow2 : ProofOfWork)
    (ht : pow1.Target = pow2.Target)
    (hc : ∀ n, ComputeData pow1 n = ComputeData pow2 n) :
    ∀ fuel start, mineAux md5 pow1 fuel start = mineAux md5 pow2 fuel start := by
  intro fuel
  induction fuel with
  | zero => intro start; simp [mineAux]
  | succ fuel ih =>
    intro start
    simp only [mineAux, hc, ht, ih]

/-- Anatomy of a successful `CreateBlock`: the result is the input shell
with the mined nonce and digest written in. -/
lemma createBlock_eq (md5 : Bytes → Bytes) (fuel : Nat) (data : String)
    (prevHash : Bytes) (transactions : List Transaction)
    (initialNonce : Nat) (b : Block)
    (h : CreateBlock md5 fuel data prevHash transactions initialNonce = some b) :
    ∃ nonce hash,
      MineBlock md5 (NewProofOfWork
        { Hash := [], Data := data, PrevHash := prevHash,
          Nonce := initialNonce, Transactions := transactions }) fuel
        = some (nonce, hash) ∧
      b = { Hash := hash, Data := data, PrevHash := prevHash,
            Nonce := nonce, Transactions := transactions } := by
  simp only [CreateBlock] at h
  cases hm : MineBlock md5 (NewProofOfWork
      { Hash := [], Data := data, PrevHash := prevHash,
        Nonce := initialNonce, Transactions := transactions }) fuel with
  | none => rw [hm] at h; simp at h
  | some p =>
    rw [hm] at h
    cases p with
    | mk nonce hash =>
      refine ⟨nonce, hash, rfl, ?_⟩
      simp only [Option.some.injEq] at h
      exact h.symm

/-- Anatomy of a successful `InitBlockChain`: one block with the genesis
data, empty previous hash and the single zero-amount coinbase transaction. -/
lemma initBlockChain_spec (md5 : Bytes → Bytes) (fuel n0 : Nat)
    (c : Blockchain) (h : InitBlockChain md5 fuel n0 = some c) :
    ∃ b, c = { Blocks := [b] } ∧ b.Data = "Genesis" ∧ b.PrevHash = [] ∧
      b.Transactions = [GenesisCoinbaseTx] := by
  simp only [InitBlockChain, Genesis] at h
  cases hg : CreateBlock md5 fuel "Genesis" [] [GenesisCoinbaseTx] n0 with
  | none => rw [hg] at h; simp at h
  | some g =>
    rw [hg] at h
    simp only [Option.map_some', Option.some.injEq] at h
    obtain ⟨nonce, hash, -, rfl⟩ :=
      createBlock_eq md5 fuel "Genesis" [] [GenesisCoinbaseTx] n0 g hg
    exact ⟨_, h.symm, rfl, rfl, rfl⟩

/-- Anatomy of a successful `AddBlock`: one block appended at the end,
linked to the tail's hash, with the synthesized coinbase reward first. -/
lemma addBlock_spec (md5 : Bytes → Bytes) (fuel : Nat) (chain : Blockchain)
    (data coinbaseRcpt : String) (txs : List Transaction) (n0 : Nat)
    (c2 : Blockchain)
    (h : AddBlock md5 fuel chain data coinbaseRcpt txs n0 = some c2) :
    ∃ prev nb, chain.Blocks.getLast? = some prev ∧
      c2 = { Blocks := chain.Blocks ++ [nb] } ∧
      nb.Data = data ∧ nb.PrevHash = prev.Hash ∧
      nb.Transactions =
        { Sender := "Coinbase", Receiver := coinbaseRcpt, Amount := 10,
          Coinbase := true } :: txs := by
  cases hl : chain.Blocks.getLast? with
  | none => simp [AddBlock, hl] at h
  | some prev =>
    simp only [AddBlock, hl] at h
    cases hc : CreateBlock md5 fuel data prev.Hash
        ({ Sender := "Coinbase", Receiver := coinbaseRcpt, Amount := 10,
           Coinbase := true } :: txs) n0 with
    | none => rw [hc] at h; simp at h
    | some nb =>
      rw [hc] at h
      simp only [Option.map_some', Option.some.injEq] at h
      obtain ⟨nonce, hash, -, rfl⟩ := createBlock_eq md5 fuel data prev.Hash
        ({ Sender := "Coinbase", Receiver := coinbaseRcpt, Amount := 10,
           Coinbase := true } :: txs) n0 nb hc
      exact ⟨prev, _, rfl, h.symm, rfl, rfl, rfl⟩

/-- Claim C2: a successful mining run returns the digest of the transcript
at the returned nonce, that digest beats the target, and no smaller nonce
beats it: the search iterates from 0 and stops at the first hit. -/
theorem mineBlock_first_valid_nonce (md5 : Bytes → Bytes)
    (pow : ProofOfWork) (fuel n : Nat) (h : Bytes)
    (hm : MineBlock md5 pow fuel = some (n, h)) :
    h = md5 (ComputeData pow n) ∧ bytesToNat h < pow.Target ∧
      ∀ m < n, ¬ bytesToNat (md5 (ComputeData pow m)) < pow.Target := by
  obtain ⟨-, hh, ht, hmin⟩ := mineAux_spec md5 pow fuel 0 n h hm
  exact ⟨hh, ht, fun m hm2 => hmin m (Nat.zero_le m) hm2⟩

/-- Concrete instance of claim C2 at the degenerate digest, a trivial block
shell and fuel 1. -/
theorem mineBlock_first_valid_nonce_witness :
    List.replicate 16 0 = md5Const (ComputeData (NewProofOfWork
      { Hash := [], Data := "", PrevHash := [], Nonce := 0,
        Transactions := [] }) 0) ∧
    bytesToNat (List.replicate 16 0) < (NewProofOfWork
      { Hash := [], Data := "", PrevHash := [], Nonce := 0,
        Transactions := [] }).Target ∧
    ∀ m < 0, ¬ bytesToNat (md5Const (ComputeData (NewProofOfWork
      { Hash := [], Data := "", PrevHash := [], Nonce := 0,
        Transactions := [] }) m)) < (NewProofOfWork
      { Hash := [], Data := "", PrevHash := [], Nonce := 0,
        Transactions := [] }).Target :=
  mineBlock_first_valid_nonce md5Const _ 1 0 (List.replicate 16 0)
    (mineAux_first_hit md5Const _ 0 0
      (validDigest_lt_target md5Const md5Const_valid _))

/-- Claim C3: the transcript is exactly
prevHash ∥ data ∥ nonce (8 big-endian bytes) ∥ difficulty (8 big-endian
bytes), and both validation and a successful mining run consume it through
the same single definition `ComputeData`. -/
theorem computeData_layout (pow : ProofOfWork) (nonce : Nat)
    (md5 : Bytes → Bytes) (fuel n : Nat) (h : Bytes) :
    ComputeData pow nonce =
      pow.Blk.PrevHash ++ strBytes pow.Blk.Data ++ beBytes8 nonce ++
        beBytes8 Difficulty ∧
    (Validate md5 pow = true ↔
      bytesToNat (md5 (ComputeData pow pow.Blk.Nonce)) < pow.Target) ∧
    (MineBlock md5 pow fuel = some (n, h) → h = md5 (ComputeData pow n)) := by
  refine ⟨?_, ?_, ?_⟩
  · simp only [ComputeData]
    exact put_put_layout (pow.Blk.PrevHash ++ strBytes pow.Blk.Data) nonce
      Difficulty
  · simp [Validate]
  · intro hm
    exact (mineAux_spec md5 pow fuel 0 n h hm).2.1

/-- Concrete instance of claim C3 at the degenerate digest and a trivial
block shell. -/
theorem computeData_layout_witness :
    ComputeData (NewProofOfWork
      { Hash := [], Data := "", PrevHash := [], Nonce := 0,
        Transactions := [] }) 0 =
      (NewProofOfWork
      { Hash := [], Data := "", PrevHash := [], Nonce := 0,
        Transactions := [] }).Blk.PrevHash ++
        strBytes (NewProofOfWork
      { Hash := [], Data := "", PrevHash := [], Nonce := 0,
        Transactions := [] }).Blk.Data ++ beBytes8 0 ++
        beBytes8 Difficulty ∧
    (Validate md5Const (NewProofOfWork
      { Hash := [], Data := "", PrevHash := [], Nonce := 0,
        Transactions := [] }) = true ↔
      bytesToNat (md5Const (ComputeData (NewProofOfWork
      { Hash := [], Data := "", PrevHash := [], Nonce := 0,
        Transactions := [] }) (NewProofOfWork
      { Hash := [], Data := "", PrevHash := [], Nonce := 0,
        Transactions := [] }).Blk.Nonce)) < (NewProofOfWork
      { Hash := [], Data := "", PrevHash := [], Nonce := 0,
        Transactions := [] }).Target) ∧
    (MineBlock md5Const (NewProofOfWork
      { Hash := [], Data := "", PrevHash := [], Nonce := 0,
        Transactions := [] }) 1 = some (0, List.replicate 16 0) →
      List.replicate 16 0 = md5Const (ComputeData (NewProofOfWork
      { Hash := [], Data := "", PrevHash := [], Nonce := 0,
        Transactions := [] }) 0)) :=
  computeData_layout _ 0 md5Const 1 0 (List.replicate 16 0)

/-- Claim C5: the proof-of-work target is `2 ^ (256 - difficulty)` (so
`2 ^ 246` at the repository's constant), and the target is strictly
antitone in the difficulty over the domain where the Go shift amount
`256 - difficulty` is a nonnegative value. -/
theorem target_formula_antitone :
    TargetOf Difficulty = 2 ^ (256 - Difficulty) ∧
    (∀ b : Block, (NewProofOfWork b).Target = 2 ^ (256 - Difficulty)) ∧
    ∀ d1 d2 : Nat, d1 < d2 → d2 ≤ 256 → TargetOf d2 < TargetOf d1 := by
  refine ⟨by simp [TargetOf, Nat.shiftLeft_eq], fun b => ?_, fun d1 d2 h1 h2 => ?_⟩
  · simp [NewProofOfWork, TargetOf, Nat.shiftLeft_eq]
  · simp only [TargetOf, Nat.shiftLeft_eq, one_mul]
    exact Nat.pow_lt_pow_right (by norm_num) (by omega)

/-- Concrete instance of claim C5 at difficulties 10 and 11. -/
theorem target_formula_antitone_witness :
    TargetOf Difficulty = 2 ^ (256 - Difficulty) ∧ TargetOf 11 < TargetOf 10 :=
  ⟨target_formula_antitone.1,
    target_formula_antitone.2.2 10 11 (by norm_num) (by norm_num)⟩

/-- Claim C4: a block whose stored nonce and hash were produced by the
mining loop (which is exactly what a successful `CreateBlock` stores)
passes `Validate`. -/
theorem createBlock_validate_self_consistent (md5 : Bytes → Bytes)
    (fuel : Nat) (data : String) (prevHash : Bytes)
    (txs : List Transaction) (n0 : Nat) (b : Block)
    (h : CreateBlock md5 fuel data prevHash txs n0 = some b) :
    Validate md5 (NewProofOfWork b) = true := by
  obtain ⟨nonce, hash, hm, rfl⟩ := createBlock_eq md5 fuel data prevHash txs n0 b h
  obtain ⟨-, hh, ht, -⟩ := mineAux_spec md5 _ fuel 0 nonce hash hm
  have hc : bytesToNat (md5 (ComputeData (NewProofOfWork
      { Hash := hash, Data := data, PrevHash := prevHash, Nonce := nonce,
        Transactions := txs }) nonce)) < (NewProofOfWork
      { Hash := hash, Data := data, PrevHash := prevHash, Nonce := nonce,
        Transactions := txs }).Target := by
    rw [hh] at ht
    exact ht
  simp only [Validate]
  exact if_pos hc

/-- Concrete instance of claim C4 at the degenerate digest. -/
theorem createBlock_validate_self_consistent_witness :
    Validate md5Const (NewProofOfWork
      { Hash := List.replicate 16 0, Data := "", PrevHash := [], Nonce := 0,
        Transactions := [] }) = true :=
  createBlock_validate_self_consistent md5Const 1 "" [] [] 7
    { Hash := List.replicate 16 0, Data := "", PrevHash := [], Nonce := 0,
      Transactions := [] }
    (by
      have h0 := mineAux_first_hit md5Const (NewProofOfWork
        { Hash := [], Data := "", PrevHash := [], Nonce := 7,
          Transactions := [] }) 0 0
        (validDigest_lt_target md5Const md5Const_valid _)
      simp only [CreateBlock, MineBlock]
      rw [h0]
      rfl)

/-- Claim C9: at the repository's difficulty constant 10 the target 2^246
strictly exceeds the largest 16-byte digest value 2^128 - 1, so every block
validates and the mining loop stops on its very first iteration with
nonce 0. -/
theorem difficulty_ten_trivial_pow (md5 : Bytes → Bytes)
    (hv : ValidDigest md5) (b : Block) (fuel : Nat) :
    TargetOf Difficulty = 2 ^ 246 ∧ 2 ^ 128 - 1 < TargetOf Difficulty ∧
    Validate md5 (NewProofOfWork b) = true ∧
    MineBlock md5 (NewProofOfWork b) (fuel + 1)
      = some (0, md5 (ComputeData (NewProofOfWork b) 0)) := by
  refine ⟨targetOf_difficulty, ?_, ?_, ?_⟩
  · rw [targetOf_difficulty]
    have h2 : (2 : Nat) ^ 128 < 2 ^ 246 :=
      Nat.pow_lt_pow_right (by norm_num) (by norm_num)
    omega
  · have hc : bytesToNat (md5 (ComputeData (NewProofOfWork b)
        (NewProofOfWork b).Blk.Nonce)) < (NewProofOfWork b).Target :=
      validDigest_lt_target md5 hv _
    simp [Validate, hc]
  · exact mineAux_first_hit md5 (NewProofOfWork b) fuel 0
      (validDigest_lt_target md5 hv _)

/-- Concrete instance of claim C9 at the degenerate digest. -/
theorem difficulty_ten_trivial_pow_witness :
    TargetOf Difficulty = 2 ^ 246 ∧ 2 ^ 128 - 1 < TargetOf Difficulty ∧
    Validate md5Const (NewProofOfWork
      { Hash := [], Data := "x", PrevHash := [3], Nonce := 42,
        Transactions := [] }) = true ∧
    MineBlock md5Const (NewProofOfWork
      { Hash := [], Data := "x", PrevHash := [3], Nonce := 42,
        Transactions := [] }) 1
      = some (0, md5Const (ComputeData (NewProofOfWork
      { Hash := [], Data := "x", PrevHash := [3], Nonce := 42,
        Transactions := [] }) 0)) :=
  difficulty_ten_trivial_pow md5Const md5Const_valid
    { Hash := [], Data := "x", PrevHash := [3], Nonce := 42,
      Transactions := [] } 0

/-- Claim C10: the mining search starts at 0 and never reads the block's
stored nonce, so the randomized starting nonce passed to `CreateBlock` is
discarded and the mined (nonce, hash) pair depends only on the block's
data, its previous hash and the difficulty constant. -/
theorem mining_ignores_initial_nonce (md5 : Bytes → Bytes) (b : Block)
    (n1 n2 fuel : Nat) (data : String) (prevHash : Bytes)
    (txs1 txs2 : List Transaction) :
    MineBlock md5 (NewProofOfWork { b with Nonce := n1 }) fuel
      = mineAux md5 (NewProofOfWork { b with Nonce := n1 }) fuel 0 ∧
    MineBlock md5 (NewProofOfWork { b with Nonce := n1 }) fuel
      = MineBlock md5 (NewProofOfWork { b with Nonce := n2 }) fuel ∧
    (CreateBlock md5 fuel data prevHash txs1 n1).map
        (fun nb => (nb.Nonce, nb.Hash))
      = (CreateBlock md5 fuel data prevHash txs2 n2).map
        (fun nb => (nb.Nonce, nb.Hash)) := by
  refine ⟨rfl, ?_, ?_⟩
  · exact mineAux_congr md5 (NewProofOfWork { b with Nonce := n1 })
      (NewProofOfWork { b with Nonce := n2 }) rfl (fun n => rfl) fuel 0
  · simp only [CreateBlock]
    have hm : MineBlock md5 (NewProofOfWork
        { Hash := [], Data := data, PrevHash := prevHash, Nonce := n1,
          Transactions := txs1 }) fuel
        = MineBlock md5 (NewProofOfWork
        { Hash := [], Data := data, PrevHash := prevHash, Nonce := n2,
          Transactions := txs2 }) fuel :=
      mineAux_congr md5 (NewProofOfWork
        { Hash := [], Data := data, PrevHash := prevHash, Nonce := n1,
          Transactions := txs1 })
        (NewProofOfWork
        { Hash := [], Data := data, PrevHash := prevHash, Nonce := n2,
          Transactions := txs2 }) rfl (fun n => rfl) fuel 0
    rw [hm]
    cases MineBlock md5 (NewProofOfWork
        { Hash := [], Data := data, PrevHash := prevHash, Nonce := n2,
          Transactions := txs2 }) fuel with
    | none => rfl
    | some p => cases p with | mk nonce hash => rfl

/-- Claim C1: every chain produced by `InitBlockChain` followed by any
sequence of successful `AddBlock` calls starts with the genesis block, and
every later block's `PrevHash` equals its predecessor's `Hash`; `AddBlock`
links the new block to the tail and preserves the invariant. -/
theorem chain_linkage_invariant (md5 : Bytes → Bytes) (c : Blockchain)
    (h : Reaches md5 c) :
    (∃ b, c.Blocks.head? = some b ∧ b.Data = "Genesis" ∧ b.PrevHash = [] ∧
      b.Transactions = [GenesisCoinbaseTx]) ∧
    List.Chain' (fun a b2 => b2.PrevHash = a.Hash) c.Blocks := by
  induction h with
  | init fuel n0 c0 hinit =>
    obtain ⟨b, rfl, hd, hp, ht⟩ := initBlockChain_spec md5 fuel n0 c0 hinit
    exact ⟨⟨b, rfl, hd, hp, ht⟩, List.chain'_singleton b⟩
  | add c0 data rcpt txs fuel n0 c2 hr hadd ih =>
    obtain ⟨prev, nb, hlast, rfl, hdata, hprev, htxs⟩ :=
      addBlock_spec md5 fuel c0 data rcpt txs n0 c2 hadd
    obtain ⟨⟨b, hhead, hbd, hbp, hbt⟩, hchain⟩ := ih
    constructor
    · refine ⟨b, ?_, hbd, hbp, hbt⟩
      show (c0.Blocks ++ [nb]).head? = some b
      rw [List.head?_append, hhead]
      rfl
    · show List.Chain' (fun a b2 => b2.PrevHash = a.Hash) (c0.Blocks ++ [nb])
      rw [List.chain'_append]
      refine ⟨hchain, List.chain'_singleton nb, ?_⟩
      intro x hx y hy
      simp only [Option.mem_def, hlast, Option.some.injEq] at hx
      simp only [Option.mem_def, List.head?_cons, Option.some.injEq] at hy
      subst hx
      subst hy
      exact hprev

/-- Concrete instance of claim C1 on the chain produced by a single
`InitBlockChain` call with the degenerate digest. -/
theorem chain_linkage_invariant_witness :
    (∃ b, gChain.Blocks.head? = some b ∧ b.Data = "Genesis" ∧
      b.PrevHash = [] ∧ b.Transactions = [GenesisCoinbaseTx]) ∧
    List.Chain' (fun a b2 => b2.PrevHash = a.Hash) gChain.Blocks :=
  chain_linkage_invariant md5Const gChain (Reaches.init 1 5 gChain (by rfl))

/-- Claim C6: `InitBlockChain` yields exactly one block, with empty
previous hash, data "Genesis" and the single zero-amount coinbase
transaction from sender "Coinbase" to receiver "Genesis". -/
theorem initBlockChain_genesis_contents (md5 : Bytes → Bytes)
    (fuel n0 : Nat) (c : Blockchain)
    (h : InitBlockChain md5 fuel n0 = some c) :
    c.Blocks.length = 1 ∧ ∃ b, c.Blocks = [b] ∧ b.PrevHash = [] ∧
      b.Data = "Genesis" ∧ b.Transactions =
        [{ Sender := "Coinbase", Receiver := "Genesis", Amount := 0,
           Coinbase := true }] := by
  obtain ⟨b, rfl, hd, hp, ht⟩ := initBlockChain_spec md5 fuel n0 c h
  exact ⟨rfl, b, rfl, hp, hd, ht⟩

/-- Concrete instance of claim C6 with the degenerate digest. -/
theorem initBlockChain_genesis_contents_witness :
    gChain.Blocks.length = 1 ∧ ∃ b, gChain.Blocks = [b] ∧
      b.PrevHash = [] ∧ b.Data = "Genesis" ∧ b.Transactions =
        [{ Sender := "Coinbase", Receiver := "Genesis", Amount := 0,
           Coinbase := true }] :=
  initBlockChain_genesis_contents md5Const 1 5 gChain (by rfl)

/-- Claim C7: a successful `AddBlock` grows the chain by exactly one block,
whose transaction list is the synthesized reward coinbase (sender
"Coinbase", receiver the reward recipient, amount 10, coinbase flag set)
followed by the caller's transactions in their original order. -/
theorem addBlock_appends_coinbase_first (md5 : Bytes → Bytes) (fuel : Nat)
    (chain : Blockchain) (data coinbaseRcpt : String)
    (txs : List Transaction) (n0 : Nat) (c2 : Blockchain)
    (h : AddBlock md5 fuel chain data coinbaseRcpt txs n0 = some c2) :
    c2.Blocks.length = chain.Blocks.length + 1 ∧
    ∃ nb, c2.Blocks = chain.Blocks ++ [nb] ∧
      nb.Transactions =
        { Sender := "Coinbase", Receiver := coinbaseRcpt, Amount := 10,
          Coinbase := true } :: txs := by
  obtain ⟨prev, nb, hlast, rfl, hdata, hprev, htxs⟩ :=
    addBlock_spec md5 fuel chain data coinbaseRcpt txs n0 c2 h
  exact ⟨by simp, nb, rfl, htxs⟩

/-- Concrete instance of claim C7: adding block "B1" for reward recipient
"Alice" with no caller transactions to the genesis chain. -/
theorem addBlock_appends_coinbase_first_witness :
    chain2.Blocks.length = gChain.Blocks.length + 1 ∧
    ∃ nb, chain2.Blocks = gChain.Blocks ++ [nb] ∧
      nb.Transactions =
        { Sender := "Coinbase", Receiver := "Alice", Amount := 10,
          Coinbase := true } :: [] :=
  addBlock_appends_coinbase_first md5Const 1 gChain "B1" "Alice" [] 3 chain2
    (by rfl)

/-- Claim C8: with a correctly generated key pair, verification succeeds on
the unmodified signed transaction, and mutating the sender, receiver or
amount after signing makes verification fail deterministically. -/
theorem sign_verify_roundtrip_and_tamper (seed : Nat) (tx tx2 : Transaction)
    (hmut : tx2.Sender ≠ tx.Sender ∨ tx2.Receiver ≠ tx.Receiver ∨
      tx2.Amount ≠ tx.Amount) :
    VerifiyTransaction tx (NewWallet seed).PublicKey
        (SignTransaction (NewWallet seed) tx) = Except.ok () ∧
    VerifiyTransaction tx2 (NewWallet seed).PublicKey
        (SignTransaction (NewWallet seed) tx)
      = Except.error "InvalidSignatureError" := by
  constructor
  · simp [VerifiyTransaction, SignTransaction, NewWallet]
  · have hne : txTranscript tx ≠ txTranscript tx2 := by
      simp only [txTranscript, ne_eq, Prod.mk.injEq, not_and]
      intro h1 h2
      rcases hmut with h | h | h
      · exact absurd h1.symm h
      · exact fun _ => absurd h2.symm h
      · intro h3; exact absurd h3.symm h
    simp only [VerifiyTransaction, SignTransaction, NewWallet]
    rw [if_neg]
    intro hand
    exact hne hand.2

/-- Concrete instance of claim C8: the amount is changed from 5 to 6 after
signing. -/
theorem sign_verify_roundtrip_and_tamper_witness :
    VerifiyTransaction
        { Sender := "Alice", Receiver := "Bob", Amount := 5, Coinbase := false }
        (NewWallet 0).PublicKey
        (SignTransaction (NewWallet 0)
          { Sender := "Alice", Receiver := "Bob", Amount := 5,
            Coinbase := false }) = Except.ok () ∧
    VerifiyTransaction
        { Sender := "Alice", Receiver := "Bob", Amount := 6, Coinbase := false }
        (NewWallet 0).PublicKey
        (SignTransaction (NewWallet 0)
          { Sender := "Alice", Receiver := "Bob", Amount := 5,
            Coinbase := false }) = Except.error "InvalidSignatureError" :=
  sign_verify_roundtrip_and_tamper 0
    { Sender := "Alice", Receiver := "Bob", Amount := 5, Coinbase := false }
    { Sender := "Alice", Receiver := "Bob", Amount := 6, Coinbase := false }
    (Or.inr (Or.inr (by norm_num)))

end GoBlockchain
